import Mathlib

/-!
Verification development for `pushback` (`src/pushback.py`), an rsync/ssh
directory-backup orchestrator.  The decision core of the program is embedded
shallowly below:

* `globRun` / `fnmatchB` / `matchesAny` — the gitignore-style pattern matcher
  (`matches_any`, built on Python's `fnmatch`);
* `Entry` / `filesAt` / `walkEntries` / `iterLargeFiles` — the large-file tree
  walk (`iter_large_files`);
* `DateTime` / `isocalendar` / `getTimeSuffix` — the time bucketer
  (`get_time_suffix`);
* `findExistingSnapshot` / `handleCollision` / `resolveTarget` — the remote
  name resolver and collision policy (`find_existing_snapshot`,
  `handle_collision`, and the resolution block of `backup_to_server`);
* `parentDirsFor` / `expandedIncludes` — the rsync include-file expansion
  (`parent_dirs_for`, `create_rsync_files`).

The embedding assumes a POSIX host (`os.sep = "/"`), so the program's
`relpath.replace(os.sep, "/")` and `os.path.normcase` normalisations are
identities and are not repeated here.  Remote state is modelled as the list of
sibling directory names under the remote base path: a directory exists on the
remote exactly when its name occurs in that list, which is what
`ssh_test_dir` / `ssh_list_all` / `ssh_list_siblings` observe.
-/

namespace Pushback

/-! ## Pattern matcher (`matches_any`, Python `fnmatch`)

Python's `fnmatch.translate` compiles a glob to a regex: `*` becomes `.*`
(matching any characters, `/` included), `?` becomes `.`, and `[...]` becomes
a regex character class.  When scanning a class it skips an optional leading
`!` (negation) and an optional first `]` (a literal member), then looks for
the closing `]`; if none is found the `[` is emitted as a literal character.
`globRun` implements the same semantics directly on character lists.  Each
recursive step shortens `pattern.length + s.length`, so the `fuel` argument
`pattern.length + s.length + 1` supplied by `fnmatchB` can never run out; it
only serves to make the recursion structural (and hence kernel-evaluable). -/

/-- Scan for the closing `]` of a character class: returns the class body and
the remainder of the pattern, or `none` when the class is unterminated. -/
def findClose : List Char → Option (List Char × List Char)
  | [] => none
  | ']' :: rest => some ([], rest)
  | c :: rest =>
    match findClose rest with
    | some (body, after) => some (c :: body, after)
    | none => none

/-- Split a character class at the chars following `[`, per
`fnmatch.translate`: an optional `!` negates, an optional first `]` is a
literal member, and an unterminated class yields `none` (literal `[`). -/
def classSplit (p : List Char) : Option (Bool × List Char × List Char) :=
  let (neg, q) :=
    match p with
    | '!' :: q => (true, q)
    | _ => (false, p)
  match q with
  | ']' :: r =>
    match findClose r with
    | some (body, after) => some (neg, ']' :: body, after)
    | none => none
  | _ =>
    match findClose q with
    | some (body, after) => some (neg, body, after)
    | none => none

/-- Membership of a character in a class body, with `a-b` ranges (compared by
code point, as in the compiled regex); a trailing or leading `-` is literal. -/
def classMember (c : Char) : List Char → Bool
  | [] => false
  | a :: '-' :: b :: rest =>
    (decide (a.toNat ≤ c.toNat ∧ c.toNat ≤ b.toNat)) || classMember c rest
  | a :: rest => c == a || classMember c rest

/-- Glob matching against a whole string (the compiled regex is anchored with
`\Z`), on explicit characters.  `fuel` bounds the recursion depth; every step
decreases `pattern.length + s.length`, so the bound set in `fnmatchB` is never
reached. -/
def globRun : Nat → List Char → List Char → Bool
  | 0, _, _ => false
  | _ + 1, [], s => s.isEmpty
  | fuel + 1, '*' :: p, s =>
    globRun fuel p s ||
      match s with
      | [] => false
      | _ :: s2 => globRun fuel ('*' :: p) s2
  | fuel + 1, '?' :: p, s =>
    match s with
    | [] => false
    | _ :: s2 => globRun fuel p s2
  | fuel + 1, '[' :: p, s =>
    match classSplit p with
    | none =>
      -- unterminated class: the `[` is a literal character
      match s with
      | '[' :: s2 => globRun fuel p s2
      | _ => false
    | some (neg, body, rest) =>
      match s with
      | [] => false
      | c :: s2 => (classMember c body != neg) && globRun fuel rest s2
  | fuel + 1, c :: p, s =>
    match s with
    | [] => false
    | c2 :: s2 => c == c2 && globRun fuel p s2

/-- `fnmatch.fnmatch(name, pat)` on a POSIX host (`normcase` is the
identity). -/
def fnmatchB (name pat : String) : Bool :=
  globRun (pat.data.length + name.data.length + 1) pat.data name.data

/-- `matches_any(patterns, relpath)`: some pattern matches either the bare
relative path or the path prefixed with `/`. -/
def matchesAny (patterns : List String) (relpath : String) : Bool :=
  patterns.any fun pat => fnmatchB relpath pat || fnmatchB ("/" ++ relpath) pat

/-! ## Large-file walk (`iter_large_files`)

The project tree is modelled as a list of entries (the contents of the walk
root); `os.walk(root, topdown=True)` visits a directory, prunes excluded
subdirectories unless re-included, yields the surviving files of that
directory, then recurses into the surviving subdirectories in order. -/

/-- A node of the local project tree: a file with its byte size, or a
directory with its children. -/
inductive Entry where
  | file (name : String) (size : Nat)
  | dir (name : String) (children : List Entry)

/-- `os.path.join(rel_dir, name)` with POSIX separators, where the walk root
itself has relative directory `""`. -/
def joinRel (relDir name : String) : String :=
  if relDir = "" then name else relDir ++ "/" ++ name

/-- Python's `s.rstrip("/")`: drop all trailing `/` characters. -/
def rstripSlashes (s : String) : String :=
  String.mk ((s.data.reverse.dropWhile fun c => c = '/').reverse)

/-- The walk's `is_included(rel)` duplicates the body of `matches_any` over
the include patterns, so it is the same function. A file is skipped when some
exclude pattern matches it and it is not directly re-included. -/
def fileSkipped (excl incl : List String) (rel : String) : Bool :=
  matchesAny excl rel && !(matchesAny incl rel)

/-- Directory pruning: the walk tests the excludes against `rel + "/"` and
the includes against `(rel + "/").rstrip("/")`. -/
def dirPruned (excl incl : List String) (rel : String) : Bool :=
  matchesAny excl (rel ++ "/") && !(matchesAny incl (rstripSlashes (rel ++ "/")))

/-- The files yielded at one directory level: a file survives when it is not
skipped and its size is at least `minBytes` (sizes are modelled as always
readable, so the `OSError` skip does not arise). -/
def filesAt (excl incl : List String) (minBytes : Nat) (relDir : String)
    (es : List Entry) : List (String × Nat) :=
  es.filterMap fun e =>
    match e with
    | .file n sz =>
      if fileSkipped excl incl (joinRel relDir n) then none
      else if minBytes ≤ sz then some (joinRel relDir n, sz) else none
    | .dir _ _ => none

mutual

/-- The walk below one tree node: files contribute nothing here (they are
yielded by `filesAt` at their own level), and a surviving subdirectory
contributes its files and then its subtree; a pruned subdirectory (removed
from `dirnames` during the topdown walk) contributes nothing. -/
def walkEntry (excl incl : List String) (minBytes : Nat) (relDir : String) :
    Entry → List (String × Nat)
  | .file _ _ => []
  | .dir n cs =>
    if dirPruned excl incl (joinRel relDir n) then []
    else
      filesAt excl incl minBytes (joinRel relDir n) cs ++
        walkEntries excl incl minBytes (joinRel relDir n) cs
termination_by structural e => e

/-- The walk below the nodes of one directory level, in listing order. -/
def walkEntries (excl incl : List String) (minBytes : Nat) (relDir : String) :
    List Entry → List (String × Nat)
  | [] => []
  | e :: rest =>
    walkEntry excl incl minBytes relDir e ++
      walkEntries excl incl minBytes relDir rest
termination_by structural es => es

end

/-- `iter_large_files(root, min_bytes, excludes, includes)` as the list of
`(relative path, size)` pairs it yields, in `os.walk` order. -/
def iterLargeFiles (excl incl : List String) (minBytes : Nat)
    (es : List Entry) : List (String × Nat) :=
  filesAt excl incl minBytes "" es ++ walkEntries excl incl minBytes "" es

mutual

/-- The files below one tree node with their relative path, the relative
paths of their ancestor directories below the walk root (outermost first),
and their size.  Used to state which files the walk visits. -/
def entryPaths (relDir : String) : Entry → List (String × List String × Nat)
  | .file n sz => [(joinRel relDir n, [], sz)]
  | .dir n cs =>
    (entriesOf (joinRel relDir n) cs).map fun e =>
      (e.1, joinRel relDir n :: e.2.1, e.2.2)
termination_by structural e => e

/-- All files of a directory level, with ancestors and sizes; see
`entryPaths`. -/
def entriesOf (relDir : String) : List Entry → List (String × List String × Nat)
  | [] => []
  | e :: rest => entryPaths relDir e ++ entriesOf relDir rest
termination_by structural es => es

end

/-! ## Time bucketer (`get_time_suffix`)

`datetime.now()` is modelled as a record of the calendar fields the function
reads (`year`, `month`, `day`, `hour`) together with `int(now.timestamp())`
(seconds since the Unix epoch), which the `custom` branch divides down.
`now.isocalendar()` is modelled by `isocalendar`, the standard ISO-8601
week-date computation on the proleptic Gregorian calendar (0001-01-01 is a
Monday), which is what CPython implements. -/

/-- The instant observed by `get_time_suffix`. -/
structure DateTime where
  year : Nat
  month : Nat
  day : Nat
  hour : Nat
  epochSeconds : Nat

/-- Python's `f"{n:02d}"` for the non-negative values formatted here. -/
def pad2 (n : Nat) : String :=
  if n < 10 then "0" ++ toString n else toString n

/-- Gregorian leap year. -/
def isLeap (y : Nat) : Bool :=
  (y % 4 = 0 && y % 100 ≠ 0) || y % 400 = 0

/-- Days in a month of the Gregorian calendar. -/
def daysInMonth (y m : Nat) : Nat :=
  if m = 2 then (if isLeap y then 29 else 28)
  else if m = 4 || m = 6 || m = 9 || m = 11 then 30
  else 31

/-- One-based ordinal of a day within its year. -/
def dayOfYear (y m d : Nat) : Nat :=
  (((List.range (m - 1)).map fun i => daysInMonth y (i + 1)).sum) + d

/-- Days strictly before January 1 of year `y` in the proleptic Gregorian
calendar (year 1 is the first year). -/
def daysBeforeYear (y : Nat) : Nat :=
  (y - 1) * 365 + (y - 1) / 4 - (y - 1) / 100 + (y - 1) / 400

/-- ISO weekday: 1 = Monday .. 7 = Sunday (0001-01-01 is a Monday). -/
def isoWeekday (y m d : Nat) : Nat :=
  (daysBeforeYear y + dayOfYear y m d - 1) % 7 + 1

/-- Number of ISO weeks in year `y` (52 or 53). -/
def isoWeeksInYear (y : Nat) : Nat :=
  let p : Nat → Nat := fun yy => (yy + yy / 4 - yy / 100 + yy / 400) % 7
  if p y = 4 || p (y - 1) = 3 then 53 else 52

/-- `(ISO year, ISO week)` of a calendar date, as returned by
`datetime.isocalendar()`. -/
def isocalendar (y m d : Nat) : Nat × Nat :=
  let doy := dayOfYear y m d
  let dow := isoWeekday y m d
  let w := (10 + doy - dow) / 7
  if w = 0 then (y - 1, isoWeeksInYear (y - 1))
  else if isoWeeksInYear y < w then (y + 1, 1)
  else (y, w)

/-- `get_time_suffix(mode, custom_hours)` evaluated at the instant `now`. -/
def getTimeSuffix (mode : String) (now : DateTime) (customHours : Nat) : String :=
  if mode = "none" then ""
  else if mode = "yearly" then "_" ++ toString now.year
  else if mode = "monthly" then "_" ++ toString now.year ++ "-" ++ pad2 now.month
  else if mode = "weekly" then
    "_" ++ toString (isocalendar now.year now.month now.day).1 ++ "W" ++
      pad2 (isocalendar now.year now.month now.day).2
  else if mode = "daily" then
    "_" ++ toString now.year ++ "-" ++ pad2 now.month ++ "-" ++ pad2 now.day
  else if mode = "hourly" then
    "_" ++ toString now.year ++ "-" ++ pad2 now.month ++ "-" ++ pad2 now.day ++
      "H" ++ pad2 now.hour
  else if mode = "custom" then
    "_I" ++ toString (now.epochSeconds / 3600 / customHours)
  else ""

/-! ## Remote name resolver and collision policy

`find_existing_snapshot`, `handle_collision`, and the target-directory
resolution block of `backup_to_server` (the part between the remote-base
check and the rsync invocation).  The remote listing is the set of sibling
directory names under the remote base; `ssh_list_siblings(.., prefix, ..)`
returns the listed names matching the shell glob `prefix_*`, i.e. those
starting with `prefix + "_"`. -/

/-- Python's `s.startswith(t)` (here: `t.startswith` applied as a test on
`s`), decided on the character lists. -/
def startsWithB (pre s : String) : Bool :=
  pre.data.isPrefixOf s.data

/-- `find_existing_snapshot(siblings, base_name, time_suffix)`. -/
def findExistingSnapshot (siblings : List String) (baseName timeSuffix : String) :
    Option String :=
  if timeSuffix = "" then
    siblings.find? fun s =>
      startsWithB (baseName ++ "_") s && (baseName ++ "_").length < s.length
  else
    siblings.find? fun s => startsWithB (baseName ++ timeSuffix) s

/-- The three terminal collision decisions. -/
inductive CollisionAction where
  | update
  | create
  | abort
deriving DecidableEq, Repr

/-- ASCII whitespace, as stripped by `str.strip()` (which additionally strips
Unicode whitespace — irrelevant to the one-letter answers at stake). -/
def isSpaceB (c : Char) : Bool :=
  c = ' ' || c = '\t' || c = '\n' || c = '\x0b' || c = '\x0c' || c = '\r'

/-- Python's `s.strip()`. -/
def stripB (s : String) : String :=
  String.mk (((s.data.dropWhile isSpaceB).reverse.dropWhile isSpaceB).reverse)

/-- The prompt's processed answer: `input(..).strip().lower() or "a"`
(`Char.toLower` agrees with `str.lower` on the ASCII answers at stake). -/
def promptChoice (answer : String) : String :=
  let a := String.mk ((stripB answer).data.map Char.toLower)
  if a = "" then "a" else a

/-- `handle_collision(existing, args)`: the decision depends only on the
force flags and, when neither force is asserted, on the prompt answer. -/
def handleCollision (forceAll forceCollisionNew forceCollisionUpdate : Bool)
    (answer : String) : CollisionAction :=
  let forceNew := forceAll || forceCollisionNew
  let forceUpdate := forceAll || forceCollisionUpdate
  if forceNew && !forceUpdate then .create
  else if forceUpdate && !forceNew then .update
  else if forceNew && forceUpdate then .create
  else if promptChoice answer = "u" then .update
  else if promptChoice answer = "c" then .create
  else .abort

/-- Result of resolving the remote target directory name: either a directory
name, with a flag recording whether the collision policy was consulted to
pick it, or an aborted run (exit path `return 1`, reached only out of
`handle_collision`). -/
inductive ResolveOutcome where
  | target (dir : String) (viaCollision : Bool)
  | aborted
deriving DecidableEq, Repr

/-- `True` exactly when the run consulted the collision policy
(`handle_collision`), whether it then updated, created, or aborted. -/
def collisionInvoked : ResolveOutcome → Bool
  | .target _ via => via
  | .aborted => true

/-- The resolution block of `backup_to_server`: `folderName`/`suffix` are the
project identity (`folder_name`, `short_fingerprint(canonical_path)`),
`timeSuffix` the bucket suffix, and `listing` the sibling names under the
remote base.  The exact-directory test `ssh_test_dir(.., exact_remote_dir)`
holds iff the exact name is listed; `ssh_list_all` returns the listing;
`ssh_list_siblings(.., folder_name)` returns the listed names starting with
`folder_name + "_"`. -/
def resolveTarget (folderName suffix timeSuffix snapshotMode : String)
    (listing : List String) (forceAll forceCollisionNew forceCollisionUpdate : Bool)
    (answer : String) : ResolveOutcome :=
  let baseRemoteName := folderName ++ "_" ++ suffix
  let exactName := baseRemoteName ++ timeSuffix
  if exactName ∈ listing then .target exactName false
  else if snapshotMode ≠ "none" then
    match findExistingSnapshot listing baseRemoteName timeSuffix with
    | some s => .target s false
    | none => .target exactName false
  else
    match (listing.filter fun s => startsWithB (folderName ++ "_") s).filter
        (fun s => s ≠ baseRemoteName) with
    | [] => .target exactName false
    | x :: xs =>
      match handleCollision forceAll forceCollisionNew forceCollisionUpdate answer with
      | .abort => .aborted
      | .update => .target ((x :: xs).getLast (List.cons_ne_nil x xs)) true
      | .create => .target exactName true

/-! ## Rsync include expansion (`parent_dirs_for`, `create_rsync_files`) -/

/-- Split a path on `/`, keeping only the non-empty components — the
composition of `path.split("/")` with the comprehension filter
`[x for x in .. if x]` (a leading `lstrip("/")` cannot change this). -/
def splitSlashAux (acc : List Char) : List Char → List String
  | [] => if acc.isEmpty then [] else [String.mk acc.reverse]
  | c :: rest =>
    if c = '/' then
      (if acc.isEmpty then [] else [String.mk acc.reverse]) ++ splitSlashAux [] rest
    else splitSlashAux (c :: acc) rest

/-- See `splitSlashAux`; `acc` holds the current component reversed. -/
def splitSlash (cs : List Char) : List String :=
  splitSlashAux [] cs

/-- The loop of `parent_dirs_for`: walk the components, extending `current`
one component at a time, and record each proper parent (everything except the
final component), re-anchored with `/` when the pattern was anchored. -/
def buildParents (anchored : Bool) : String → List String → List String
  | _, [] => []
  | _, [_] => []
  | current, part :: rest =>
    let current2 := (if current = "" then "" else current ++ "/") ++ part
    (if anchored then "/" ++ current2 else current2) ::
      buildParents anchored current2 rest

/-- `parent_dirs_for(pattern)`: the proper parent directories of an include
pattern, shallowest first, each with a trailing `/`. -/
def parentDirsFor (pattern : String) : List String :=
  let anchored := pattern.data.head? = some '/'
  (buildParents anchored "" (splitSlash pattern.data)).map fun x => x ++ "/"

/-- The include-file expansion loop of `create_rsync_files`: for each include
pattern, its parent-directory entries and then the pattern itself. -/
def expandedIncludes (includePatterns : List String) : List String :=
  includePatterns.foldl (fun acc pat => acc ++ parentDirsFor pat ++ [pat]) []

/-! ## Resolver theorems -/

/-- C2: for every project identity, snapshot mode, time suffix and remote
state, if the exact remote directory name `<name>_<fingerprint><timeSuffix>`
already exists on the remote, resolution returns exactly that directory and
never invokes the collision policy or any prompt — so a second run within the
same time bucket silently yields the same name. -/
theorem resolve_exact_match_silent (folderName suffix timeSuffix snapshotMode : String)
    (listing : List String) (fa fn fu : Bool) (answer : String)
    (h : ((folderName ++ "_" ++ suffix) ++ timeSuffix) ∈ listing) :
    resolveTarget folderName suffix timeSuffix snapshotMode listing fa fn fu answer =
      .target ((folderName ++ "_" ++ suffix) ++ timeSuffix) false := by
  unfold resolveTarget
  simp [h]

theorem resolve_exact_match_silent_witness :
    ("app_a1b2c3d4_2025-01-15" : String) ∈ ["app_a1b2c3d4_2025-01-15"] ∧
      resolveTarget "app" "a1b2c3d4" "_2025-01-15" "daily" ["app_a1b2c3d4_2025-01-15"]
        false false false "" = .target "app_a1b2c3d4_2025-01-15" false :=
  ⟨by decide,
    resolve_exact_match_silent "app" "a1b2c3d4" "_2025-01-15" "daily"
      ["app_a1b2c3d4_2025-01-15"] false false false "" (by decide)⟩

/-- C3: for every snapshot mode other than `none` (whose time suffix is then
non-empty), when the exact name is absent from the remote listing, resolution
returns the first listed entry whose name starts with
`<name>_<fingerprint><timeSuffix>` if one exists, and otherwise mints the
exact name; the collision policy is never invoked — in particular a listed
sibling of a different time bucket does not prevent silently minting the
current bucket's name. -/
theorem resolve_snapshot_no_collision (folderName suffix timeSuffix snapshotMode : String)
    (listing : List String) (fa fn fu : Bool) (answer : String)
    (hmode : snapshotMode ≠ "none") (hts : timeSuffix ≠ "")
    (habs : ((folderName ++ "_" ++ suffix) ++ timeSuffix) ∉ listing) :
    resolveTarget folderName suffix timeSuffix snapshotMode listing fa fn fu answer =
      .target
        ((listing.find? fun s =>
            startsWithB ((folderName ++ "_" ++ suffix) ++ timeSuffix) s).getD
          ((folderName ++ "_" ++ suffix) ++ timeSuffix))
        false := by
  unfold resolveTarget findExistingSnapshot
  simp only [if_neg habs, if_pos hmode, if_neg hts]
  cases listing.find? fun s =>
      startsWithB ((folderName ++ "_" ++ suffix) ++ timeSuffix) s <;>
    simp

theorem resolve_snapshot_no_collision_witness :
    (("daily" : String) ≠ "none" ∧ ("_2025-01-15" : String) ≠ "" ∧
        ("app_a1b2c3d4_2025-01-15" : String) ∉ ["app_a1b2c3d4_2025-01-14"]) ∧
      resolveTarget "app" "a1b2c3d4" "_2025-01-15" "daily" ["app_a1b2c3d4_2025-01-14"]
        false false false "" = .target "app_a1b2c3d4_2025-01-15" false :=
  ⟨by decide, by
    rw [resolve_snapshot_no_collision "app" "a1b2c3d4" "_2025-01-15" "daily"
      ["app_a1b2c3d4_2025-01-14"] false false false "" (by decide) (by decide) (by decide)]
    decide⟩

/-- C4: the collision decision is a function of the two force flags and the
prompt answer: whenever the forced-new flag is asserted (directly or through
`--force-all`) the decision is create-new, also when forced-update is
asserted at the same time; when only forced-update is asserted the decision
is update-existing, and the update target is the last element of the
candidate listing; when neither is asserted the decision follows the prompt
answer — `u` update, `c` create, anything else including empty input
aborts. -/
theorem collision_decision_table :
    (∀ (fa fn fu : Bool) (ans : String), (fa || fn) = true →
        handleCollision fa fn fu ans = .create) ∧
      (∀ (fa fu : Bool) (ans : String), fa = false → fu = true →
        handleCollision fa false fu ans = .update) ∧
      (∀ ans : String,
        handleCollision false false false ans =
          if promptChoice ans = "u" then .update
          else if promptChoice ans = "c" then .create
          else .abort) ∧
      (∀ (name fp : String) (listing : List String) (ans : String) (x : String)
          (xs : List String),
        ((listing.filter fun s => startsWithB (name ++ "_") s).filter
            fun s => s ≠ name ++ "_" ++ fp) = x :: xs →
        ((name ++ "_" ++ fp) ++ "") ∉ listing →
        resolveTarget name fp "" "none" listing false false true ans =
          .target ((x :: xs).getLast (List.cons_ne_nil x xs)) true) := by
  refine ⟨?_, ?_, ?_, ?_⟩
  · rintro fa fn fu ans h
    cases fa <;> cases fn <;> cases fu <;> simp_all [handleCollision]
  · rintro fa fu ans rfl rfl
    rfl
  · intro ans
    rfl
  · intro name fp listing ans x xs hfil habs
    unfold resolveTarget
    simp only [if_neg habs, if_neg (show ¬(("none" : String) ≠ "none") by decide)]
    rw [hfil]
    rfl

theorem collision_decision_table_witness :
    handleCollision true false true "" = .create ∧
      handleCollision false false true "" = .update ∧
      handleCollision false false false " C " = .create ∧
      handleCollision false false false "" = .abort ∧
      resolveTarget "app" "a1b2c3d4" "" "none" ["app_deadbeef", "app_cafe"]
        false false true "" = .target "app_cafe" true :=
  ⟨collision_decision_table.1 true false true "" (by decide),
    collision_decision_table.2.1 false true "" (by decide) (by decide),
    by rw [collision_decision_table.2.2.1 " C "]; decide,
    by rw [collision_decision_table.2.2.1 ""]; decide,
    by
      rw [collision_decision_table.2.2.2 "app" "a1b2c3d4" ["app_deadbeef", "app_cafe"]
        "" "app_deadbeef" ["app_cafe"] (by decide) (by decide)]
      decide⟩

/-- C1, counterexample: with snapshot mode `none`, project identity
`app`/`a1b2c3d4` and a remote listing holding only the same-fingerprint
leftover snapshot directory `app_a1b2c3d4_2025-01-14`, the exact directory
`app_a1b2c3d4` does not exist, yet resolution *does* invoke the collision
policy (here: with no forces and an empty prompt answer, the run aborts) —
the claim says a same-fingerprint sibling differing only in a time suffix
never triggers collision handling. -/
theorem none_mode_same_fingerprint_triggers_collision :
    ("app_a1b2c3d4" : String) ∉ (["app_a1b2c3d4_2025-01-14"] : List String) ∧
      collisionInvoked
        (resolveTarget "app" "a1b2c3d4" "" "none" ["app_a1b2c3d4_2025-01-14"]
          false false false "") = true ∧
      resolveTarget "app" "a1b2c3d4" "" "none" ["app_a1b2c3d4_2025-01-14"]
        false false false "" = .aborted := by
  decide

/-- C1, amended: when snapshot mode is `none` and the exact remote directory
`<name>_<fingerprint>` does not already exist, resolution invokes the
collision policy if and only if the remote listing contains a sibling whose
name shares the `name_` prefix and is not exactly `<name>_<fingerprint>` —
the fingerprint is not inspected, so a sibling with the same fingerprint that
differs only in a time suffix (e.g. left over from an earlier snapshot run)
also triggers collision handling. -/
theorem none_mode_collision_iff (folderName suffix : String) (listing : List String)
    (fa fn fu : Bool) (answer : String)
    (habs : ((folderName ++ "_" ++ suffix) ++ "") ∉ listing) :
    collisionInvoked
        (resolveTarget folderName suffix "" "none" listing fa fn fu answer) = true ↔
      ∃ s ∈ listing, startsWithB (folderName ++ "_") s = true ∧
        s ≠ folderName ++ "_" ++ suffix := by
  unfold resolveTarget
  simp only [if_neg habs]
  rcases hfil : (listing.filter fun s => startsWithB (folderName ++ "_") s).filter
      (fun s => s ≠ folderName ++ "_" ++ suffix) with _ | ⟨x, xs⟩
  · simp only [ne_eq, not_true_eq_false, if_false, hfil]
    simp only [collisionInvoked]
    constructor
    · intro h
      exact absurd h (by decide)
    · rintro ⟨s, hs, hpre, hne⟩
      have : s ∈ (listing.filter fun s => startsWithB (folderName ++ "_") s).filter
          (fun s => s ≠ folderName ++ "_" ++ suffix) := by
        rw [List.mem_filter, List.mem_filter]
        exact ⟨⟨hs, hpre⟩, by simpa using hne⟩
      rw [hfil] at this
      cases this
  · simp only [ne_eq, not_true_eq_false, if_false, hfil]
    constructor
    · intro _
      have hx : x ∈ (listing.filter fun s => startsWithB (folderName ++ "_") s).filter
          (fun s => s ≠ folderName ++ "_" ++ suffix) := by
        rw [hfil]; exact List.mem_cons_self x xs
      rw [List.mem_filter, List.mem_filter] at hx
      exact ⟨x, hx.1.1, hx.1.2, by simpa using hx.2⟩
    · intro _
      cases h : handleCollision fa fn fu answer <;> simp [h, collisionInvoked]

theorem none_mode_collision_iff_witness :
    (("app_a1b2c3d4" ++ "" : String) ∉ (["app_a1b2c3d4_2025-01-14"] : List String)) ∧
      (∃ s ∈ (["app_a1b2c3d4_2025-01-14"] : List String),
        startsWithB ("app" ++ "_") s = true ∧ s ≠ "app" ++ "_" ++ "a1b2c3d4") :=
  ⟨by decide,
    (none_mode_collision_iff "app" "a1b2c3d4" ["app_a1b2c3d4_2025-01-14"]
      false false false "" (by decide)).mp (by decide)⟩

/-! ## Time bucketer theorems -/

/-- C6: for `custom(n)` mode with any positive `n`, the time suffix is `_I`
followed by the integer division of the whole hours since the epoch by `n`;
since dividing by 3600 and then by `n` equals dividing by `3600 * n`, any two
instants in the same epoch-aligned n-hour window produce identical suffixes,
and an instant in a later window carries a strictly larger interval number
than any instant in an earlier window. -/
theorem custom_suffix_buckets (t t2 : DateTime) (n : Nat) (hn : 0 < n) :
    (getTimeSuffix "custom" t n = "_I" ++ toString (t.epochSeconds / 3600 / n)) ∧
      (getTimeSuffix "custom" t n = "_I" ++ toString (t.epochSeconds / (3600 * n))) ∧
      (t.epochSeconds / (3600 * n) = t2.epochSeconds / (3600 * n) →
        getTimeSuffix "custom" t n = getTimeSuffix "custom" t2 n) ∧
      (t.epochSeconds / (3600 * n) < t2.epochSeconds / (3600 * n) →
        t.epochSeconds / 3600 / n < t2.epochSeconds / 3600 / n) := by
  refine ⟨rfl, ?_, ?_, ?_⟩
  · rw [show getTimeSuffix "custom" t n = "_I" ++ toString (t.epochSeconds / 3600 / n)
      from rfl]
    rw [Nat.div_div_eq_div_mul]
  · intro h
    show "_I" ++ toString (t.epochSeconds / 3600 / n) =
      "_I" ++ toString (t2.epochSeconds / 3600 / n)
    rw [Nat.div_div_eq_div_mul, Nat.div_div_eq_div_mul, h]
  · intro h
    rw [Nat.div_div_eq_div_mul, Nat.div_div_eq_div_mul]
    exact h

theorem custom_suffix_buckets_witness :
    (0 < 6 ∧
        getTimeSuffix "custom" ⟨1970, 1, 1, 13, 46800⟩ 6 =
          getTimeSuffix "custom" ⟨1970, 1, 1, 14, 50400⟩ 6) ∧
      (0 < 6 ∧ 61200 / (3600 * 6) < 68400 / (3600 * 6) ∧
        61200 / 3600 / 6 < 68400 / 3600 / 6) :=
  ⟨⟨by decide,
      (custom_suffix_buckets ⟨1970, 1, 1, 13, 46800⟩ ⟨1970, 1, 1, 14, 50400⟩ 6
        (by decide)).2.2.1 (by decide)⟩,
    ⟨by decide, by decide,
      (custom_suffix_buckets ⟨1970, 1, 1, 17, 61200⟩ ⟨1970, 1, 1, 19, 68400⟩ 6
        (by decide)).2.2.2 (by decide)⟩⟩

/-- C7: the time-suffix function maps each snapshot mode to exactly the
specified format — `none` to `""`, `yearly` to `_<year>`, `monthly` to
`_<year>-MM`, `weekly` to `_<isoyear>Www` with ISO-8601 week numbering,
`daily` to `_<year>-MM-DD`, `hourly` to `_<year>-MM-DDHhh` — with month,
day, hour and week zero-padded to two digits by `pad2`.  In particular the
first Monday of ISO week 1 of 2027 (2027-01-04) gets `_2027W01` while the
preceding Sunday (2027-01-03) is assigned to the prior ISO year and week,
`_2026W53`. -/
theorem time_suffix_formats :
    (∀ (t : DateTime) (n : Nat),
        getTimeSuffix "none" t n = "" ∧
          getTimeSuffix "yearly" t n = "_" ++ toString t.year ∧
          getTimeSuffix "monthly" t n = "_" ++ toString t.year ++ "-" ++ pad2 t.month ∧
          getTimeSuffix "weekly" t n =
            "_" ++ toString (isocalendar t.year t.month t.day).1 ++ "W" ++
              pad2 (isocalendar t.year t.month t.day).2 ∧
          getTimeSuffix "daily" t n =
            "_" ++ toString t.year ++ "-" ++ pad2 t.month ++ "-" ++ pad2 t.day ∧
          getTimeSuffix "hourly" t n =
            "_" ++ toString t.year ++ "-" ++ pad2 t.month ++ "-" ++ pad2 t.day ++
              "H" ++ pad2 t.hour) ∧
      getTimeSuffix "weekly" ⟨2027, 1, 4, 0, 0⟩ 24 = "_2027W01" ∧
      getTimeSuffix "weekly" ⟨2027, 1, 3, 0, 0⟩ 24 = "_2026W53" ∧
      getTimeSuffix "weekly" ⟨2025, 1, 15, 10, 0⟩ 24 = "_2025W03" ∧
      (∀ n : Nat, n < 100 → (pad2 n).length = 2) := by
  refine ⟨fun t n => ⟨rfl, rfl, rfl, rfl, rfl, rfl⟩, by decide, by decide, by decide, ?_⟩
  intro n hn
  interval_cases n <;> decide

/-- C10: for every mode in {yearly, monthly, weekly, daily, hourly, custom},
every instant and every positive custom interval, the time suffix is a
non-empty string starting with `_`; the suffix is the empty string exactly
for mode `none` and for unrecognized mode strings; consequently a
snapshot-mode remote directory name `<base><timeSuffix>` is strictly longer
than the base name, and with a non-empty suffix `find_existing_snapshot`
always takes its prefix-search branch, never the empty-suffix branch. -/
theorem snapshot_suffix_nonempty (m : String) (t : DateTime) (n : Nat) (hn : 0 < n) :
    (m ∈ ["yearly", "monthly", "weekly", "daily", "hourly", "custom"] →
        getTimeSuffix m t n ≠ "" ∧ (getTimeSuffix m t n).data.head? = some '_' ∧
          ∀ base : String, base.length < (base ++ getTimeSuffix m t n).length) ∧
      (m ∉ ["none", "yearly", "monthly", "weekly", "daily", "hourly", "custom"] →
        getTimeSuffix m t n = "") ∧
      getTimeSuffix "none" t n = "" ∧
      (∀ (siblings : List String) (base ts : String), ts ≠ "" →
        findExistingSnapshot siblings base ts =
          siblings.find? fun s => startsWithB (base ++ ts) s) := by
  refine ⟨?_, ?_, rfl, ?_⟩
  · intro hm
    simp only [List.mem_cons, List.not_mem_nil, or_false] at hm
    have hhead : (getTimeSuffix m t n).data.head? = some '_' := by
      rcases hm with rfl | rfl | rfl | rfl | rfl | rfl
      · rfl
      · rfl
      · rfl
      · rfl
      · rfl
      · rfl
    have hne : getTimeSuffix m t n ≠ "" := by
      intro h
      rw [h] at hhead
      cases hhead
    refine ⟨hne, hhead, fun base => ?_⟩
    have hpos : 0 < (getTimeSuffix m t n).length := by
      rcases hd : (getTimeSuffix m t n).data with _ | ⟨c, cs⟩
      · rw [hd] at hhead; cases hhead
      · have : (getTimeSuffix m t n).length = (getTimeSuffix m t n).data.length := rfl
        rw [this, hd]
        exact Nat.succ_pos _
    calc base.length < base.length + (getTimeSuffix m t n).length := by omega
      _ = (base ++ getTimeSuffix m t n).length := (String.length_append base _).symm
  · intro hm
    simp only [List.mem_cons, List.mem_singleton, not_or] at hm
    obtain ⟨h0, h1, h2, h3, h4, h5, h6, -⟩ := hm
    unfold getTimeSuffix
    rw [if_neg h0, if_neg h1, if_neg h2, if_neg h3, if_neg h4, if_neg h5, if_neg h6]
  · intro siblings base ts hts
    unfold findExistingSnapshot
    rw [if_neg hts]

theorem snapshot_suffix_nonempty_witness :
    (0 < 24 ∧ ("daily" : String) ∈ ["yearly", "monthly", "weekly", "daily", "hourly", "custom"] ∧
        getTimeSuffix "daily" ⟨2025, 1, 15, 10, 0⟩ 24 ≠ "" ∧
        (getTimeSuffix "daily" ⟨2025, 1, 15, 10, 0⟩ 24).data.head? = some '_') ∧
      getTimeSuffix "garbage" ⟨2025, 1, 15, 10, 0⟩ 24 = "" ∧
      findExistingSnapshot ["app_x_2025-01-14"] "app_x" "_2025-01-15" =
        List.find? (fun s => startsWithB ("app_x" ++ "_2025-01-15") s) ["app_x_2025-01-14"] := by
  have h := snapshot_suffix_nonempty "daily" ⟨2025, 1, 15, 10, 0⟩ 24 (by decide)
  have h2 := snapshot_suffix_nonempty "garbage" ⟨2025, 1, 15, 10, 0⟩ 24 (by decide)
  obtain ⟨ha, -, -, -⟩ := h
  obtain ⟨-, hb, -, hc⟩ := h2
  have := ha (by decide)
  exact ⟨⟨by decide, by decide, this.1, this.2.1⟩, hb (by decide),
    hc ["app_x_2025-01-14"] "app_x" "_2025-01-15" (by decide)⟩

/-! ## Rsync include-expansion theorems -/

/-- Helper: the accumulated component flushed by `splitSlashAux` is
non-empty when the accumulator was non-empty. -/
theorem flush_ne_empty (acc : List Char) (q : String)
    (hq : q ∈ if acc.isEmpty then ([] : List String) else [String.mk acc.reverse]) :
    q ≠ "" := by
  split at hq
  · cases hq
  · next h =>
    rw [List.mem_singleton] at hq
    subst hq
    intro hcon
    have h2 : acc.reverse = [] := congrArg String.data hcon
    rw [List.reverse_eq_nil_iff] at h2
    rw [h2] at h
    exact h rfl

/-- Every component produced by `splitSlashAux` is non-empty. -/
theorem splitSlashAux_ne_empty :
    ∀ (cs acc : List Char) (q : String), q ∈ splitSlashAux acc cs → q ≠ "" := by
  intro cs
  induction cs with
  | nil => exact fun acc q hq => flush_ne_empty acc q hq
  | cons c rest ih =>
    intro acc q hq
    simp only [splitSlashAux] at hq
    split at hq
    · rw [List.mem_append] at hq
      rcases hq with hq | hq
      · exact flush_ne_empty acc q hq
      · exact ih [] q hq
    · exact ih (c :: acc) q hq

/-- Helper: appending a non-empty string yields a non-empty string. -/
theorem append_ne_empty_right (x y : String) (hy : y ≠ "") : x ++ y ≠ "" := by
  intro h
  apply hy
  have hd := congrArg String.data h
  rw [String.data_append] at hd
  rcases List.append_eq_nil.mp hd with ⟨-, h2⟩
  exact String.ext h2

/-- Every entry produced by `buildParents` with the anchor flag set starts
with `/`. -/
theorem buildParents_anchored :
    ∀ (parts : List String) (cur x : String),
      x ∈ buildParents true cur parts → ∃ y, x = "/" ++ y := by
  intro parts
  induction parts with
  | nil => intro cur x hx; cases hx
  | cons p1 rest ih =>
    intro cur x hx
    cases rest with
    | nil => cases hx
    | cons p2 rest2 =>
      simp only [buildParents, List.mem_cons] at hx
      rcases hx with rfl | hx
      · exact ⟨_, rfl⟩
      · exact ih _ x hx

/-- Every entry of `buildParents cur parts` extends the later entries'
prefixes: consecutive entries, once suffixed with `/`, are related by list
prefixing.  Requires all components non-empty (as `splitSlash` guarantees). -/
theorem buildParents_chain (anch : Bool) :
    ∀ (parts : List String) (cur : String), (∀ q ∈ parts, q ≠ "") →
      List.Chain' (fun a b : String =>
        List.isPrefixOf (a ++ "/").data ((b ++ "/").data) = true)
        (buildParents anch cur parts) := by
  intro parts
  induction parts with
  | nil => intro cur _; simp [buildParents]
  | cons p1 rest ih =>
    intro cur hne
    cases rest with
    | nil => simp [buildParents]
    | cons p2 rest2 =>
      simp only [buildParents]
      have hrest : ∀ q ∈ p2 :: rest2, q ≠ "" := fun q hq =>
        hne q (List.mem_cons_of_mem p1 hq)
      refine List.chain'_cons'.mpr ⟨?_, ih _ hrest⟩
      intro b hb
      set cur2 := (if cur = "" then "" else cur ++ "/") ++ p1 with hcur2
      have hcur2ne : cur2 ≠ "" :=
        append_ne_empty_right _ _ (hne p1 (List.mem_cons_self p1 _))
      cases rest2 with
      | nil => simp [buildParents] at hb
      | cons p3 rest3 =>
        simp only [buildParents, List.head?_cons, Option.mem_some_iff] at hb
        subst hb
        rw [if_neg hcur2ne]
        have hsplit :
            ((if anch then "/" ++ (cur2 ++ "/" ++ p2) else cur2 ++ "/" ++ p2) ++ "/") =
              ((if anch then "/" ++ cur2 else cur2) ++ "/") ++ (p2 ++ "/") := by
          cases anch <;> simp [String.append_assoc]
        rw [hsplit, String.data_append]
        simp [List.isPrefixOf_iff_prefix]

/-- Folding the include-expansion loop equals flat-mapping each pattern to
its parents followed by the pattern itself. -/
theorem expandedIncludes_eq_flatMap (pats : List String) :
    expandedIncludes pats = pats.flatMap fun p => parentDirsFor p ++ [p] := by
  unfold expandedIncludes
  suffices h : ∀ (l : List String) (acc : List String),
      l.foldl (fun acc pat => acc ++ parentDirsFor pat ++ [pat]) acc =
        acc ++ l.flatMap (fun p => parentDirsFor p ++ [p]) by
    rw [h pats []]
    rfl
  intro l
  induction l with
  | nil => intro acc; simp
  | cons p rest ih =>
    intro acc
    rw [List.flatMap_cons, List.foldl_cons, ih]
    simp [List.append_assoc]

/-- C8: for every include pattern, the generated rsync include list lays out,
for each pattern in order, the pattern's proper parent directories and then
the pattern itself, so all parent entries appear before their pattern; each
parent entry carries a trailing `/`; a pattern anchored with a leading `/`
produces parents anchored with a leading `/`; consecutive parents are
ordered shallowest first (each is a prefix of the next); and a pattern with
at most one path component contributes no parent entries.  Concretely,
`/a/b/c` contributes `/a/` then `/a/b/` then itself. -/
theorem rsync_include_expansion :
    (∀ pats : List String,
        expandedIncludes pats = pats.flatMap fun p => parentDirsFor p ++ [p]) ∧
      (∀ (p e : String), e ∈ parentDirsFor p → e.data.getLast? = some '/') ∧
      (∀ p : String, p.data.head? = some '/' →
        ∀ e ∈ parentDirsFor p, e.data.head? = some '/') ∧
      (∀ p : String,
        List.Chain' (fun a b : String => List.isPrefixOf a.data b.data = true)
          (parentDirsFor p)) ∧
      (∀ p : String, (splitSlash p.data).length ≤ 1 → parentDirsFor p = []) ∧
      parentDirsFor "/a/b/c" = ["/a/", "/a/b/"] ∧
      parentDirsFor "a/b/c" = ["a/", "a/b/"] ∧
      parentDirsFor "/a" = [] ∧
      expandedIncludes ["/a/b/c"] = ["/a/", "/a/b/", "/a/b/c"] := by
  refine ⟨expandedIncludes_eq_flatMap, ?_, ?_, ?_, ?_, by decide, by decide, by decide,
    by decide⟩
  · intro p e he
    unfold parentDirsFor at he
    rw [List.mem_map] at he
    obtain ⟨x, -, rfl⟩ := he
    rw [String.data_append]
    exact List.getLast?_concat _
  · intro p hp e he
    unfold parentDirsFor at he
    rw [List.mem_map] at he
    obtain ⟨x, hx, rfl⟩ := he
    rw [hp] at hx
    obtain ⟨y, rfl⟩ := buildParents_anchored _ _ x (by simpa using hx)
    rfl
  · intro p
    unfold parentDirsFor
    rw [List.chain'_map]
    exact buildParents_chain _ _ "" (fun q hq => splitSlashAux_ne_empty _ _ q hq)
  · intro p hlen
    unfold parentDirsFor
    rcases hs : splitSlash p.data with _ | ⟨a, rest⟩
    · rfl
    · cases rest with
      | nil => rfl
      | cons b r2 => rw [hs] at hlen; simp at hlen

/-! ## Pattern-matcher theorems -/

/-- The single-character pattern `[` is an unterminated class and therefore a
literal: it matches exactly the one-character string `[`. -/
theorem globRun_lone_bracket (fuel : Nat) (s : List Char) :
    globRun (fuel + 2) ['['] s = decide (s = ['[']) := by
  rcases s with _ | ⟨c, s2⟩
  · rfl
  · by_cases hc : c = '['
    · subst hc
      cases s2
      · rfl
      · rfl
    · have hl : globRun (fuel + 2) ['['] (c :: s2) = false := by
        show (match c :: s2 with
              | '[' :: s2 => globRun (fuel + 1) [] s2
              | _ => false) = false
        split
        · next c2 s3 heq =>
          rw [List.cons.injEq] at heq
          exact absurd heq.1 hc
        · rfl
      rw [hl]
      symm
      rw [decide_eq_false_iff_not]
      intro h
      rw [List.cons.injEq] at h
      exact hc h.1

/-- `matches_any` with the malformed pattern list `["["]` accepts exactly the
path `[`. -/
theorem matchesAny_lone_bracket (path : String) :
    matchesAny ["["] path = decide (path = "[") := by
  unfold matchesAny fnmatchB
  simp only [List.any_cons, List.any_nil, Bool.or_false]
  have h1 : ("[" : String).data.length + path.data.length + 1 = path.data.length + 2 := by
    simp
    omega
  have h2 : ("[" : String).data.length + ("/" ++ path).data.length + 1 =
      path.data.length + 3 := by
    rw [String.data_append]
    simp
    omega
  rw [h1, h2]
  rw [globRun_lone_bracket]
  have h3 : globRun (path.data.length + 3) ("[" : String).data ("/" ++ path).data =
      decide (("/" ++ path).data = ['[']) := by
    rw [show path.data.length + 3 = (path.data.length + 1) + 2 from by omega]
    rw [show ("/" ++ path).data = '/' :: path.data from by
      rw [String.data_append]; rfl]
    rw [globRun_lone_bracket]
  rw [h3]
  have h4 : decide (("/" ++ path).data = ['[']) = false := by
    rw [decide_eq_false_iff_not]
    intro h
    rw [show ("/" ++ path).data = '/' :: path.data from by
      rw [String.data_append]; rfl] at h
    rw [List.cons.injEq] at h
    cases h.1
  rw [h4, Bool.or_false]
  rw [decide_eq_decide]
  constructor
  · intro h
    exact String.ext h
  · intro h
    rw [h]

/-- C9, counterexample: the malformed glob `[` (unbalanced bracket) does
match a path — namely the literal path `[` — whereas the claim states a
malformed glob matches no path. -/
theorem malformed_glob_matches_literal_path :
    matchesAny ["["] "[" = true := by decide

/-- C9, amended: pattern evaluation is a total boolean function (it never
raises to the caller), and a malformed glob such as an unbalanced `[` is
treated as a literal string rather than a never-matching one: the pattern
`[` matches exactly the path `[` (and no other), and the pattern `[a`
matches exactly the literal text `[a`. -/
theorem malformed_glob_is_literal :
    (∀ (pats : List String) (path : String),
        matchesAny pats path = true ∨ matchesAny pats path = false) ∧
      (∀ path : String, matchesAny ["["] path = true ↔ path = "[") ∧
      matchesAny ["["] "x" = false ∧
      fnmatchB "[a" "[a" = true ∧ fnmatchB "a" "[a" = false := by
  refine ⟨?_, ?_, by decide, by decide, by decide⟩
  · intro pats path
    cases matchesAny pats path
    · right; rfl
    · left; rfl
  · intro path
    rw [matchesAny_lone_bracket]
    constructor
    · intro h
      exact of_decide_eq_true h
    · intro h
      rw [h]
      rfl

/-! ## Large-file walk theorems -/

theorem mem_walk_cons_file (excl incl : List String) (minB : Nat) (relDir n : String)
    (fsz : Nat) (rest : List Entry) (p : String) (sz : Nat) :
    ((p, sz) ∈ filesAt excl incl minB relDir (.file n fsz :: rest) ++
        walkEntries excl incl minB relDir (.file n fsz :: rest)) ↔
      ((p = joinRel relDir n ∧ sz = fsz ∧
          fileSkipped excl incl (joinRel relDir n) = false ∧ minB ≤ fsz) ∨
        (p, sz) ∈ filesAt excl incl minB relDir rest ++
          walkEntries excl incl minB relDir rest) := by
  rw [walkEntries]
  rw [show walkEntry excl incl minB relDir (.file n fsz) = [] from rfl]
  rw [List.nil_append]
  by_cases hskip : fileSkipped excl incl (joinRel relDir n) = true
  · rw [show filesAt excl incl minB relDir (.file n fsz :: rest) =
        filesAt excl incl minB relDir rest from by
      simp [filesAt, List.filterMap_cons, hskip]]
    rw [Bool.eq_false_iff]
    tauto
  · rw [Bool.not_eq_true] at hskip
    by_cases hsz : minB ≤ fsz
    · rw [show filesAt excl incl minB relDir (.file n fsz :: rest) =
          (joinRel relDir n, fsz) :: filesAt excl incl minB relDir rest from by
        simp [filesAt, List.filterMap_cons, hskip, hsz]]
      rw [List.cons_append, List.mem_cons, Prod.mk.injEq]
      tauto
    · rw [show filesAt excl incl minB relDir (.file n fsz :: rest) =
          filesAt excl incl minB relDir rest from by
        simp [filesAt, List.filterMap_cons, hskip, hsz]]
      constructor
      · intro h; exact Or.inr h
      · rintro (⟨-, rfl, -, h⟩ | h)
        · exact absurd h hsz
        · exact h

theorem mem_walk_cons_dir (excl incl : List String) (minB : Nat) (relDir n : String)
    (cs rest : List Entry) (p : String) (sz : Nat) :
    ((p, sz) ∈ filesAt excl incl minB relDir (.dir n cs :: rest) ++
        walkEntries excl incl minB relDir (.dir n cs :: rest)) ↔
      ((dirPruned excl incl (joinRel relDir n) = false ∧
          (p, sz) ∈ filesAt excl incl minB (joinRel relDir n) cs ++
            walkEntries excl incl minB (joinRel relDir n) cs) ∨
        (p, sz) ∈ filesAt excl incl minB relDir rest ++
          walkEntries excl incl minB relDir rest) := by
  rw [walkEntries]
  rw [show filesAt excl incl minB relDir (.dir n cs :: rest) =
      filesAt excl incl minB relDir rest from by
    simp [filesAt, List.filterMap_cons]]
  rw [walkEntry]
  by_cases hpr : dirPruned excl incl (joinRel relDir n) = true
  · rw [if_pos hpr, List.nil_append, Bool.eq_false_iff]
    tauto
  · rw [Bool.not_eq_true] at hpr
    rw [if_neg (by rw [hpr]; exact Bool.false_ne_true)]
    simp only [List.mem_append, hpr, true_and]
    tauto

theorem mem_map_anc (l : List (String × List String × Nat)) (d p : String)
    (as : List String) (sz : Nat) :
    ((p, as, sz) ∈ l.map fun e => (e.1, d :: e.2.1, e.2.2)) ↔
      ∃ as2, as = d :: as2 ∧ (p, as2, sz) ∈ l := by
  rw [List.mem_map]
  constructor
  · rintro ⟨⟨q, qas, qsz⟩, hmem, heq⟩
    rw [Prod.mk.injEq, Prod.mk.injEq] at heq
    obtain ⟨h1, h2, h3⟩ := heq
    subst h1; subst h2; subst h3
    exact ⟨qas, rfl, hmem⟩
  · rintro ⟨as2, rfl, hmem⟩
    exact ⟨(p, as2, sz), hmem, rfl⟩

theorem walk_mem_aux (excl incl : List String) (minB : Nat) :
    ∀ (relDir : String) (es : List Entry) (p : String) (sz : Nat),
      ((p, sz) ∈ filesAt excl incl minB relDir es ++ walkEntries excl incl minB relDir es) ↔
        ∃ as, (p, as, sz) ∈ entriesOf relDir es ∧ minB ≤ sz ∧
          (∀ a ∈ as, dirPruned excl incl a = false) ∧
          fileSkipped excl incl p = false
  | relDir, [], p, sz => by
    simp [filesAt, walkEntries, entriesOf]
  | relDir, .file n fsz :: rest, p, sz => by
    have ih := walk_mem_aux excl incl minB relDir rest p sz
    rw [mem_walk_cons_file, ih]
    rw [show entriesOf relDir (.file n fsz :: rest) =
        (joinRel relDir n, [], fsz) :: entriesOf relDir rest from rfl]
    constructor
    · rintro (⟨rfl, rfl, hskip, hsz⟩ | ⟨as, hmem, hsz, hall, hskip⟩)
      · exact ⟨[], List.mem_cons_self _ _, hsz, by simp, hskip⟩
      · exact ⟨as, List.mem_cons_of_mem _ hmem, hsz, hall, hskip⟩
    · rintro ⟨as, hmem, hsz, hall, hskip⟩
      rcases List.mem_cons.mp hmem with heq | hmem2
      · rw [Prod.mk.injEq, Prod.mk.injEq] at heq
        obtain ⟨h1, h2, h3⟩ := heq
        subst h1; subst h3
        exact Or.inl ⟨rfl, rfl, hskip, hsz⟩
      · exact Or.inr ⟨as, hmem2, hsz, hall, hskip⟩
  | relDir, .dir n cs :: rest, p, sz => by
    have ih1 := walk_mem_aux excl incl minB (joinRel relDir n) cs p sz
    have ih2 := walk_mem_aux excl incl minB relDir rest p sz
    rw [mem_walk_cons_dir, ih1, ih2]
    rw [show entriesOf relDir (.dir n cs :: rest) =
        ((entriesOf (joinRel relDir n) cs).map fun e =>
          (e.1, joinRel relDir n :: e.2.1, e.2.2)) ++ entriesOf relDir rest from rfl]
    constructor
    · rintro (⟨hpr, as, hmem, hsz, hall, hskip⟩ | ⟨as, hmem, hsz, hall, hskip⟩)
      · refine ⟨joinRel relDir n :: as, ?_, hsz, ?_, hskip⟩
        · rw [List.mem_append, mem_map_anc]
          exact Or.inl ⟨as, rfl, hmem⟩
        · intro a ha
          rcases List.mem_cons.mp ha with rfl | ha2
          · exact hpr
          · exact hall a ha2
      · exact ⟨as, by rw [List.mem_append]; exact Or.inr hmem, hsz, hall, hskip⟩
    · rintro ⟨as, hmem, hsz, hall, hskip⟩
      rcases List.mem_append.mp hmem with hmap | hrest
      · rw [mem_map_anc] at hmap
        obtain ⟨as2, rfl, hmem2⟩ := hmap
        refine Or.inl ⟨hall _ (List.mem_cons_self _ _), as2, hmem2, hsz, ?_, hskip⟩
        exact fun a ha => hall a (List.mem_cons_of_mem _ ha)
      · exact Or.inr ⟨as, hrest, hsz, hall, hskip⟩
termination_by _ es _ _ => sizeOf es


/-- C5, counterexample: with excludes `["/build/"]` and includes
`["/build/keep.txt"]` the claim says `build/keep.txt` is included in the
large-file walk; but the walk prunes the directory `build` — includes are
matched only against the path itself, never as ancestor directory-include
markers — so neither `build/keep.txt` nor `build/other.txt` is yielded even
at threshold 0, although `build/keep.txt` itself would pass the file-level
test. -/
theorem walk_include_not_ancestor_marker :
    iterLargeFiles ["/build/"] ["/build/keep.txt"] 0
        [Entry.dir "build" [Entry.file "keep.txt" 5, Entry.file "other.txt" 5]] = [] ∧
      fileSkipped ["/build/"] ["/build/keep.txt"] "build/keep.txt" = false ∧
      dirPruned ["/build/"] ["/build/keep.txt"] "build" = true := by decide

/-- C5, amended: during the large-file walk, a file of the tree is yielded if
and only if its size meets the threshold, it is not itself skipped (some
exclude pattern matches it and no include pattern matches it directly), and
no ancestor directory of it is pruned, where a directory is pruned when an
exclude pattern matches its path with a trailing `/` and no include pattern
matches its path directly; include patterns are never consulted as ancestor
directory-include markers, so with excludes `["/build/"]` and includes
`["/build/keep.txt"]` both `build/keep.txt` and `build/other.txt` are
excluded. -/
theorem walk_exclusion_charact (excl incl : List String) (minB : Nat)
    (es : List Entry) (p : String) (sz : Nat) :
    ((p, sz) ∈ iterLargeFiles excl incl minB es) ↔
      ∃ as, (p, as, sz) ∈ entriesOf "" es ∧ minB ≤ sz ∧
        (∀ a ∈ as, dirPruned excl incl a = false) ∧
        fileSkipped excl incl p = false :=
  walk_mem_aux excl incl minB "" es p sz


theorem walk_exclusion_charact_witness :
    ("a.bin", 5) ∈ iterLargeFiles [] [] 0 [Entry.file "a.bin" 5] :=
  (walk_exclusion_charact [] [] 0 [Entry.file "a.bin" 5] "a.bin" 5).mpr
    ⟨[], by decide, by decide, by decide, by decide⟩

theorem rsync_include_expansion_witness :
    ("/a/" : String).data.getLast? = some '/' ∧
      ("/a/" : String).data.head? = some '/' ∧
      parentDirsFor "xyz" = [] :=
  ⟨rsync_include_expansion.2.1 "/a/b/c" "/a/" (by decide),
    rsync_include_expansion.2.2.1 "/a/b/c" (by decide) "/a/" (by decide),
    rsync_include_expansion.2.2.2.2.1 "xyz" (by decide)⟩

theorem malformed_glob_is_literal_witness :
    matchesAny ["["] "[" = true ∧ matchesAny ["["] "]" = false :=
  ⟨(malformed_glob_is_literal.2.1 "[").mpr rfl, by
    rw [Bool.eq_false_iff]
    intro hc
    exact absurd ((malformed_glob_is_literal.2.1 "]").mp hc) (by decide)⟩

end Pushback
